import Mathlib

/-!
Verification of the per-room collaborative whiteboard state engine of the
realtime-chat-app repository.  The definitions below are a shallow embedding
of the BoardManager class (boards.js) and of the whiteboard socket handlers
(index.js).  JavaScript runtime values that the code inspects dynamically
(typeof checks, truthiness, strict equality, NaN/Infinity) are modelled by
the inductive type JsValue; finite JS numbers are modelled as rationals.
-/

set_option maxRecDepth 20000

namespace Whiteboard

/-- A JavaScript runtime value as far as the whiteboard code observes it:
undefined, null, booleans, numbers (NaN, signed infinities and finite
numbers, the latter as rationals), strings, and Date objects (carrying
their creation instant). -/
inductive JsValue where
  | undef : JsValue
  | null : JsValue
  | bool : Bool → JsValue
  | nan : JsValue
  | inf : Bool → JsValue
  | num : Rat → JsValue
  | str : String → JsValue
  | date : Nat → JsValue
deriving DecidableEq

/-- JavaScript truthiness: undefined, null, false, NaN, 0 and the empty
string are falsy; infinities, nonzero numbers, nonempty strings and
objects (dates) are truthy. -/
def truthy : JsValue → Bool
  | JsValue.undef => false
  | JsValue.null => false
  | JsValue.bool b => b
  | JsValue.nan => false
  | JsValue.inf _ => true
  | JsValue.num q => decide (q ≠ 0)
  | JsValue.str s => decide (s ≠ "")
  | JsValue.date _ => true

/-- JavaScript strict equality (===).  NaN is not strictly equal to
anything, including itself.  Values of different types are never equal.
Dates are compared by identity; the embedded code never compares dates,
so representing identity by the carried instant is unobservable. -/
def jsStrictEq : JsValue → JsValue → Bool
  | JsValue.nan, _ => false
  | _, JsValue.nan => false
  | JsValue.undef, JsValue.undef => true
  | JsValue.null, JsValue.null => true
  | JsValue.bool a, JsValue.bool b => decide (a = b)
  | JsValue.inf a, JsValue.inf b => decide (a = b)
  | JsValue.num a, JsValue.num b => decide (a = b)
  | JsValue.str a, JsValue.str b => decide (a = b)
  | JsValue.date a, JsValue.date b => decide (a = b)
  | _, _ => false

/-- typeof v === 'number' (NaN and the infinities are numbers in JS). -/
def typeofNumber : JsValue → Bool
  | JsValue.nan => true
  | JsValue.inf _ => true
  | JsValue.num _ => true
  | _ => false

/-- typeof v === 'string'. -/
def typeofString : JsValue → Bool
  | JsValue.str _ => true
  | _ => false

/-- v === undefined. -/
def isUndef : JsValue → Bool
  | JsValue.undef => true
  | _ => false

/-- isFinite(v) for a value already known to be a number: true exactly for
finite numbers (NaN and the infinities are not finite). -/
def jsIsFinite : JsValue → Bool
  | JsValue.num _ => true
  | _ => false

/-- The JS comparison v <= b for a value v with typeof v === 'number' and a
finite bound b: false for NaN, true for -Infinity, false for +Infinity. -/
def jsLeNum (v : JsValue) (b : Rat) : Bool :=
  match v with
  | JsValue.nan => false
  | JsValue.inf p => !p
  | JsValue.num q => decide (q ≤ b)
  | _ => false

/-- The JS comparison v > b for a value v with typeof v === 'number' and a
finite bound b: false for NaN, false for -Infinity, true for +Infinity. -/
def jsGtNum (v : JsValue) (b : Rat) : Bool :=
  match v with
  | JsValue.nan => false
  | JsValue.inf p => p
  | JsValue.num q => decide (b < q)
  | _ => false

/-- v is a nonempty string (typeof v === 'string' && v.length > 0). -/
def strNonempty : JsValue → Bool
  | JsValue.str s => decide (s ≠ "")
  | _ => false

/-- A stored stroke segment, with the exact field set the server builds in
the draw handler and boards.js stores: coordinates, color, size, the
client-supplied strokeId correlating the segments of one stroke, the
author socket id and display name, and the server-assigned timestamp.
Every field is a JsValue because the code inspects their runtime types. -/
structure Stroke where
  x0 : JsValue
  y0 : JsValue
  x1 : JsValue
  y1 : JsValue
  color : JsValue
  size : JsValue
  strokeId : JsValue
  userId : JsValue
  username : JsValue
  timestamp : JsValue
deriving DecidableEq

/-- The BoardManager.boards object: room name (a string key) to list of
strokes, modelled as an association list with unique keys. -/
abbrev Boards := List (String × List Stroke)

/-- Property lookup this.boards[room] on the boards object. -/
def lookupB : Boards → String → Option (List Stroke)
  | [], _ => none
  | (r, v) :: rest, room => if r = room then some v else lookupB rest room

/-- Property write this.boards[room] = v (replace the binding if the key is
present, otherwise add it). -/
def setB : Boards → String → List Stroke → Boards
  | [], room, v => [(room, v)]
  | (r, w) :: rest, room, v =>
    if r = room then (r, v) :: rest else (r, w) :: setB rest room v

/-- Property delete this.boards[room]. -/
def delB : Boards → String → Boards
  | [], _ => []
  | (r, w) :: rest, room => if r = room then rest else (r, w) :: delB rest room

/-- The guard `!room || typeof room !== 'string'` used by addStroke,
getBoard and clearBoard: the room is usable exactly when it is a nonempty
string; returns that string. -/
def roomKey : JsValue → Option String
  | JsValue.str s => if s = "" then none else some s
  | _ => none

/-- MAX_STROKES_PER_ROOM from boards.js. -/
def MAX_STROKES_PER_ROOM : Nat := 5000

/-- BoardManager.validateStroke.  The argument is none when the candidate
is not an object (the `!stroke || typeof stroke !== 'object'` guard); the
remaining checks mirror the source line by line. -/
def validateStroke : Option Stroke → Bool
  | none => false
  | some s =>
    if isUndef s.x0 || isUndef s.y0 || isUndef s.x1 || isUndef s.y1 then
      false
    else if !(typeofNumber s.x0 && typeofNumber s.y0 &&
              typeofNumber s.x1 && typeofNumber s.y1) then
      false
    else if !(jsIsFinite s.x0 && jsIsFinite s.y0 &&
              jsIsFinite s.x1 && jsIsFinite s.y1) then
      false
    else if !(typeofString s.color && strNonempty s.color) then
      false
    else if !typeofNumber s.size || jsLeNum s.size 0 || jsGtNum s.size 100 then
      false
    else if !(typeofString s.userId && strNonempty s.userId) then
      false
    else if !(typeofString s.username && strNonempty s.username) then
      false
    else
      true

/-- The `if (!stroke.timestamp) stroke.timestamp = new Date()` step of
addStroke: assign the current instant when the timestamp field is falsy. -/
def stampTs (now : Nat) (s : Stroke) : Stroke :=
  if truthy s.timestamp then s else { s with timestamp := JsValue.date now }

/-- BoardManager.addStroke.  Checks the room, re-validates the stroke,
creates the room board if absent, evicts the oldest segment when the board
is at capacity, assigns a timestamp when absent, and appends.  Returns
whether the stroke was appended, together with the updated boards. -/
def addStroke (bs : Boards) (room : JsValue) (stroke : Option Stroke)
    (now : Nat) : Bool × Boards :=
  match roomKey room with
  | none => (false, bs)
  | some r =>
    if validateStroke stroke then
      match stroke with
      | none => (false, bs)
      | some s =>
        let cur := (lookupB bs r).getD []
        let cur2 := if MAX_STROKES_PER_ROOM ≤ cur.length
                    then cur.drop 1 else cur
        (true, setB bs r (cur2 ++ [stampTs now s]))
    else
      (false, bs)

/-- BoardManager.getBoard: the room board, or the empty list for an invalid
room name or a room with no board (return this.boards[room] || []). -/
def getBoard (bs : Boards) (room : JsValue) : List Stroke :=
  match roomKey room with
  | none => []
  | some r => (lookupB bs r).getD []

/-- BoardManager.clearBoard: empties the board when one exists and reports
whether it did; an invalid room name or a room with no board yields false
with no change. -/
def clearBoard (bs : Boards) (room : JsValue) : Bool × Boards :=
  match roomKey room with
  | none => (false, bs)
  | some r =>
    match lookupB bs r with
    | some _ => (true, setB bs r [])
    | none => (false, bs)

/-- BoardManager.deleteBoard: removes the room binding when present. -/
def deleteBoard (bs : Boards) (room : String) : Boards :=
  match lookupB bs room with
  | some _ => delB bs room
  | none => bs

/-- The backward scan of removeLastUserStroke: the most recently appended
segment whose userId is strictly equal to the given user id. -/
def findLastUserSeg (strokes : List Stroke) (userId : JsValue) :
    Option Stroke :=
  strokes.reverse.find? (fun s => jsStrictEq s.userId userId)

/-- BoardManager.removeLastUserStroke.  Guards on a falsy room, a falsy
user id and a missing board; scans backward for the last segment of the
user and captures its strokeId (null when no segment is found); returns
false when the captured id is falsy; otherwise filters out every segment
of that user carrying the captured id and reports whether any segment was
removed.  The room is a string here because the only call site passes the
payload room after it compared strictly equal to the sender's room. -/
def removeLastUserStroke (bs : Boards) (room : String) (userId : JsValue) :
    Bool × Boards :=
  if room = "" || !truthy userId then (false, bs)
  else
    match lookupB bs room with
    | none => (false, bs)
    | some strokes =>
      let lastStrokeId :=
        match findLastUserSeg strokes userId with
        | some s => s.strokeId
        | none => JsValue.null
      if !truthy lastStrokeId then (false, bs)
      else
        let newStrokes := strokes.filter
          (fun seg => !(jsStrictEq seg.userId userId &&
                        jsStrictEq seg.strokeId lastStrokeId))
        let removedCount := strokes.length - newStrokes.length
        (decide (0 < removedCount), setB bs room newStrokes)

/-- The spread of new Set(strokes.map(s => s.userId)) in getBoardStats:
deduplication keeping the first occurrence of each value, in order. -/
def jsSetDedup : List JsValue → List JsValue
  | [] => []
  | a :: l => a :: jsSetDedup (l.filter (fun b => b ≠ a))
termination_by l => l.length
decreasing_by
  simp only [List.length_cons]
  exact Nat.lt_succ_of_le (List.length_filter_le _ _)

/-- The record returned by BoardManager.getBoardStats.  The maxCapacity and
isFull fields are optional because the empty-board branch of the source
omits them. -/
structure BoardStats where
  room : JsValue
  strokeCount : Nat
  users : List JsValue
  maxCapacity : Option Nat
  isFull : Option Bool
  isEmpty : Bool
deriving DecidableEq

/-- BoardManager.getBoardStats: reads the board through getBoard and
derives the stats record; the empty-board branch returns a record without
maxCapacity and isFull. -/
def getBoardStats (bs : Boards) (room : JsValue) : BoardStats :=
  let strokes := getBoard bs room
  if strokes.length = 0 then
    { room := room, strokeCount := 0, users := [],
      maxCapacity := none, isFull := none, isEmpty := true }
  else
    { room := room, strokeCount := strokes.length,
      users := jsSetDedup (strokes.map (fun s => s.userId)),
      maxCapacity := some MAX_STROKES_PER_ROOM,
      isFull := some (decide (MAX_STROKES_PER_ROOM ≤ strokes.length)),
      isEmpty := false }

/-- The in-memory session record returned by getUser (users.js): socket id,
display name and currently-joined room (the durable Mongo user id is not
consulted by any board handler). -/
structure UserRec where
  id : String
  username : String
  room : String
deriving DecidableEq

/-- The payload of an inbound draw event, with the fields the handler
reads.  The handler receives arbitrary client data, so every field is a
JsValue; a missing payload (the `!strokeData` guard) is modelled by Option
at the call site. -/
structure DrawPayload where
  room : JsValue
  x0 : JsValue
  y0 : JsValue
  x1 : JsValue
  y1 : JsValue
  color : JsValue
  size : JsValue
  strokeId : JsValue
deriving DecidableEq

/-- An outbound emission of the whiteboard socket handlers. -/
inductive Emit where
  | errorToSender : String → Emit
  | drawBroadcast : String → DrawPayload → Emit
  | boardCleared : String → String → Nat → Emit
  | strokeUndone : String → String → Nat → List Stroke → Nat → Emit
  | loadBoard : String → List Stroke → Emit
deriving DecidableEq

/-- The socket.on('draw') handler of index.js: requires a session user,
silently drops a missing payload, a falsy payload room or a payload room
not strictly equal to the user's room, re-validates coordinates, color and
size, builds the stored stroke with the server-side author identity and
timestamp, adds it to the board, and rebroadcasts the raw payload to the
other room participants only when the add succeeded. -/
def handleDraw (user? : Option UserRec) (socketId : String)
    (payload : Option DrawPayload) (bs : Boards) (now : Nat) :
    Boards × List Emit :=
  match user? with
  | none => (bs, [Emit.errorToSender "User not found. Please rejoin the room."])
  | some user =>
    match payload with
    | none => (bs, [])
    | some p =>
      if !truthy p.room || !jsStrictEq p.room (JsValue.str user.room) then
        (bs, [])
      else if !(typeofNumber p.x0 && typeofNumber p.y0 &&
                typeofNumber p.x1 && typeofNumber p.y1) then
        (bs, [])
      else if !(jsIsFinite p.x0 && jsIsFinite p.y0 &&
                jsIsFinite p.x1 && jsIsFinite p.y1) then
        (bs, [])
      else if !(typeofString p.color && strNonempty p.color) then
        (bs, [])
      else if !typeofNumber p.size || jsLeNum p.size 0 || jsGtNum p.size 100 then
        (bs, [])
      else
        let stroke : Stroke :=
          { x0 := p.x0, y0 := p.y0, x1 := p.x1, y1 := p.y1,
            color := p.color, size := p.size, strokeId := p.strokeId,
            userId := JsValue.str socketId,
            username := JsValue.str user.username,
            timestamp := JsValue.date now }
        let res := addStroke bs (JsValue.str user.room) (some stroke) now
        if res.1 then (res.2, [Emit.drawBroadcast user.room p])
        else (res.2, [])

/-- The socket.on('clearBoard') handler of index.js: requires a session
user, silently drops a falsy payload room or a payload room not strictly
equal to the user's room, clears the board, and broadcasts boardCleared to
the whole room regardless of whether a board existed.  The payload room
that reaches clearBoard is strictly equal to user.room, hence written as
user.room here. -/
def handleClearBoard (user? : Option UserRec) (rm : JsValue) (bs : Boards)
    (now : Nat) : Boards × List Emit :=
  match user? with
  | none => (bs, [Emit.errorToSender "User not found"])
  | some user =>
    if !truthy rm || !jsStrictEq rm (JsValue.str user.room) then
      (bs, [])
    else
      let res := clearBoard bs (JsValue.str user.room)
      (res.2, [Emit.boardCleared user.room user.username now])

/-- The socket.on('undoStroke') handler of index.js: requires a session
user, silently drops a falsy payload room or a payload room not strictly
equal to the user's room, removes the last stroke group of the sender,
and only when a removal happened broadcasts strokeUndone to the whole room
carrying the undoer's name, a removedCount hard-coded to 1, and the full
post-removal board.  The payload room that reaches removeLastUserStroke is
strictly equal to user.room, hence written as user.room here. -/
def handleUndoStroke (user? : Option UserRec) (socketId : String)
    (rm : JsValue) (bs : Boards) (now : Nat) : Boards × List Emit :=
  match user? with
  | none => (bs, [Emit.errorToSender "User not found"])
  | some user =>
    if !truthy rm || !jsStrictEq rm (JsValue.str user.room) then
      (bs, [])
    else
      let res := removeLastUserStroke bs user.room (JsValue.str socketId)
      if res.1 then
        (res.2, [Emit.strokeUndone user.room user.username 1
                   (getBoard res.2 (JsValue.str user.room)) now])
      else
        (res.2, [])

/-- The socket.on('requestBoardState') handler of index.js: silently drops
an invalid room name, then requires a session user whose room equals the
requested room, and sends the board snapshot to the requesting sender
only. -/
def handleRequestBoardState (user? : Option UserRec) (rm : JsValue)
    (bs : Boards) : Boards × List Emit :=
  match roomKey rm with
  | none => (bs, [])
  | some r =>
    match user? with
    | none => (bs, [])
    | some user =>
      if user.room = r then
        (bs, [Emit.loadBoard r (getBoard bs (JsValue.str r))])
      else
        (bs, [])

/-- The socket.on('strokeComplete') handler of index.js: silently returns
when there is no session user or the payload room is falsy or differs from
the user's room; otherwise it only logs — it never touches a board and
never emits. -/
def handleStrokeComplete (user? : Option UserRec) (rm : JsValue)
    (bs : Boards) : Boards × List Emit :=
  match user? with
  | none => (bs, [])
  | some user =>
    if !truthy rm || !jsStrictEq rm (JsValue.str user.room) then
      (bs, [])
    else
      (bs, [])

/-- Folding a list of addStroke calls (arbitrary rooms, candidates and
instants) over the boards, keeping only the state. -/
def runAddStrokes (bs : Boards)
    (calls : List (JsValue × Option Stroke × Nat)) : Boards :=
  calls.foldl (fun b c => (addStroke b c.1 c.2.1 c.2.2).2) bs

/-- Adding a list of strokes one at a time to a fixed room. -/
def addStrokeList (bs : Boards) (room : JsValue) (strokes : List Stroke)
    (now : Nat) : Boards :=
  strokes.foldl (fun b s => (addStroke b room (some s) now).2) bs

/-- The pure effect of repeatedly appending to one room board with
capacity eviction, used to describe addStrokeList. -/
def pushAll (cur : List Stroke) : List Stroke → List Stroke
  | [] => cur
  | s :: rest =>
    pushAll ((if MAX_STROKES_PER_ROOM ≤ cur.length
              then cur.drop 1 else cur) ++ [s]) rest

theorem lookupB_setB_self (bs : Boards) (r : String) (v : List Stroke) :
    lookupB (setB bs r v) r = some v := by
  induction bs with
  | nil => simp [setB, lookupB]
  | cons hd tl ih =>
    obtain ⟨k, w⟩ := hd
    by_cases h : k = r
    · simp [setB, lookupB, h]
    · simp [setB, lookupB, h, ih]

theorem lookupB_setB_ne (bs : Boards) (r r' : String) (v : List Stroke)
    (h : r' ≠ r) : lookupB (setB bs r v) r' = lookupB bs r' := by
  have hrr : ¬ r = r' := fun hh => h hh.symm
  induction bs with
  | nil => simp [setB, lookupB, hrr]
  | cons hd tl ih =>
    obtain ⟨k, w⟩ := hd
    by_cases hk : k = r
    · subst hk
      simp [setB, lookupB, hrr]
    · by_cases hk' : k = r'
      · simp [setB, lookupB, hk, hk', h]
      · simp [setB, lookupB, hk, hk', ih]

theorem addStroke_valid (bs : Boards) (room : JsValue) (r : String)
    (s : Stroke) (now : Nat) (hr : roomKey room = some r)
    (hv : validateStroke (some s) = true) :
    addStroke bs room (some s) now =
      (true,
       setB bs r
         ((if MAX_STROKES_PER_ROOM ≤ ((lookupB bs r).getD []).length
           then ((lookupB bs r).getD []).drop 1
           else (lookupB bs r).getD []) ++ [stampTs now s])) := by
  simp [addStroke, hr, hv]

theorem addStroke_invalid (bs : Boards) (room : JsValue)
    (stroke : Option Stroke) (now : Nat)
    (hv : validateStroke stroke = false) :
    addStroke bs room stroke now = (false, bs) := by
  cases h : roomKey room with
  | none => simp [addStroke, h]
  | some r => simp [addStroke, h, hv]

theorem addStroke_bad_room (bs : Boards) (room : JsValue)
    (stroke : Option Stroke) (now : Nat) (hr : roomKey room = none) :
    addStroke bs room stroke now = (false, bs) := by
  simp [addStroke, hr]

theorem addStroke_bound (bs : Boards)
    (hb : ∀ r : String, ((lookupB bs r).getD []).length ≤
            MAX_STROKES_PER_ROOM)
    (room : JsValue) (stroke : Option Stroke) (now : Nat) :
    ∀ r : String,
      ((lookupB (addStroke bs room stroke now).2 r).getD []).length ≤
        MAX_STROKES_PER_ROOM := by
  intro r
  cases hr : roomKey room with
  | none => simp [addStroke, hr]; exact hb r
  | some r0 =>
    cases hv : validateStroke stroke with
    | false => simp [addStroke_invalid bs room stroke now hv]; exact hb r
    | true =>
      cases stroke with
      | none => simp [validateStroke] at hv
      | some s =>
        rw [addStroke_valid bs room r0 s now hr hv]
        by_cases hrr : r = r0
        · subst hrr
          simp only [lookupB_setB_self, Option.getD_some]
          have hcur := hb r
          by_cases hfull :
              MAX_STROKES_PER_ROOM ≤ ((lookupB bs r).getD []).length
          · rw [if_pos hfull]
            simp only [MAX_STROKES_PER_ROOM, List.length_append,
              List.length_drop, List.length_cons, List.length_nil] at *
            omega
          · rw [if_neg hfull]
            simp only [MAX_STROKES_PER_ROOM, List.length_append,
              List.length_cons, List.length_nil] at *
            omega
        · rw [lookupB_setB_ne bs r0 r _ hrr]
          exact hb r

theorem runAddStrokes_bound (calls : List (JsValue × Option Stroke × Nat)) :
    ∀ bs : Boards,
      (∀ r : String, ((lookupB bs r).getD []).length ≤
         MAX_STROKES_PER_ROOM) →
      ∀ r : String,
        ((lookupB (runAddStrokes bs calls) r).getD []).length ≤
          MAX_STROKES_PER_ROOM := by
  induction calls with
  | nil => intro bs hb r; exact hb r
  | cons c rest ih =>
    intro bs hb r
    have hstep := addStroke_bound bs hb c.1 c.2.1 c.2.2
    exact ih _ hstep r

theorem addStrokeList_pushAll (room : JsValue) (r : String) (now : Nat)
    (hr : roomKey room = some r) :
    ∀ (strokes : List Stroke) (bs : Boards),
      (∀ s ∈ strokes, validateStroke (some s) = true ∧
         truthy s.timestamp = true) →
      (lookupB (addStrokeList bs room strokes now) r).getD [] =
        pushAll ((lookupB bs r).getD []) strokes := by
  intro strokes
  induction strokes with
  | nil => intro bs _; simp [addStrokeList, pushAll]
  | cons s rest ih =>
    intro bs hall
    have hs := hall s (List.mem_cons_self s rest)
    have hrest : ∀ t ∈ rest, validateStroke (some t) = true ∧
        truthy t.timestamp = true :=
      fun t ht => hall t (List.mem_cons_of_mem s ht)
    have hstamp : stampTs now s = s := by simp [stampTs, hs.2]
    have hstep := addStroke_valid bs room r s now hr hs.1
    show (lookupB (addStrokeList
        (addStroke bs room (some s) now).2 room rest now) r).getD [] = _
    rw [hstep]
    rw [ih _ hrest]
    rw [lookupB_setB_self]
    simp only [Option.getD_some, pushAll, hstamp]

theorem pushAll_length_le (L : List Stroke) :
    ∀ cur : List Stroke, cur.length ≤ MAX_STROKES_PER_ROOM →
      (pushAll cur L).length ≤ MAX_STROKES_PER_ROOM := by
  induction L with
  | nil => intro cur h; simpa [pushAll] using h
  | cons s rest ih =>
    intro cur h
    simp only [pushAll]
    apply ih
    by_cases hfull : MAX_STROKES_PER_ROOM ≤ cur.length
    · rw [if_pos hfull]
      simp only [MAX_STROKES_PER_ROOM, List.length_append,
        List.length_drop, List.length_cons, List.length_nil] at *
      omega
    · rw [if_neg hfull]
      simp only [MAX_STROKES_PER_ROOM, List.length_append,
        List.length_cons, List.length_nil] at *
      omega

theorem pushAll_no_evict (L : List Stroke) :
    ∀ cur : List Stroke, cur.length + L.length ≤ MAX_STROKES_PER_ROOM →
      pushAll cur L = cur ++ L := by
  induction L with
  | nil => intro cur _; simp [pushAll]
  | cons s rest ih =>
    intro cur h
    simp only [List.length_cons] at h
    have hnot : ¬ MAX_STROKES_PER_ROOM ≤ cur.length := by
      simp only [MAX_STROKES_PER_ROOM] at h ⊢
      omega
    simp only [pushAll, hnot, if_false]
    rw [ih (cur ++ [s]) (by
      simp only [MAX_STROKES_PER_ROOM, List.length_append,
        List.length_cons, List.length_nil] at h ⊢
      omega)]
    simp

theorem pushAll_append (L1 L2 : List Stroke) :
    ∀ cur : List Stroke, pushAll cur (L1 ++ L2) = pushAll (pushAll cur L1) L2 := by
  induction L1 with
  | nil => intro cur; simp [pushAll]
  | cons s rest ih =>
    intro cur
    simp only [List.cons_append, pushAll]
    exact ih _

theorem truthy_str (U : String) (hU : U ≠ "") :
    truthy (JsValue.str U) = true := by
  simp [truthy, hU]

theorem jsStrictEq_refl_of_truthy (v : JsValue) (h : truthy v = true) :
    jsStrictEq v v = true := by
  cases v <;> simp_all [truthy, jsStrictEq]

theorem lookupB_eq_none_of_not_mem (bs : Boards) (r : String)
    (h : r ∉ bs.map Prod.fst) : lookupB bs r = none := by
  induction bs with
  | nil => rfl
  | cons hd tl ih =>
    obtain ⟨k, w⟩ := hd
    simp only [List.map_cons, List.mem_cons] at h
    push_neg at h
    have hk : ¬ k = r := fun hh => h.1 hh.symm
    simp [lookupB, hk, ih h.2]

theorem lookupB_delB_self (bs : Boards) (r : String)
    (h : (bs.map Prod.fst).Nodup) : lookupB (delB bs r) r = none := by
  induction bs with
  | nil => rfl
  | cons hd tl ih =>
    obtain ⟨k, w⟩ := hd
    simp only [List.map_cons, List.nodup_cons] at h
    by_cases hk : k = r
    · subst hk
      simp only [delB, if_pos rfl]
      exact lookupB_eq_none_of_not_mem tl k h.1
    · simp [delB, hk, lookupB, ih h.2]

theorem jsSetDedup_mem_aux (n : Nat) :
    ∀ l : List JsValue, l.length ≤ n →
      ∀ v, (v ∈ jsSetDedup l ↔ v ∈ l) := by
  induction n with
  | zero =>
    intro l hl v
    have : l = [] := List.eq_nil_of_length_eq_zero (Nat.le_zero.mp hl)
    subst this
    simp [jsSetDedup]
  | succ n ih =>
    intro l hl v
    match l with
    | [] => simp [jsSetDedup]
    | a :: t =>
      have hlen : (t.filter (fun b => b ≠ a)).length ≤ n := by
        have h1 := List.length_filter_le (fun b => decide (b ≠ a)) t
        simp only [List.length_cons] at hl
        omega
      rw [jsSetDedup]
      by_cases hv : v = a
      · subst hv; simp
      · simp only [List.mem_cons, hv, false_or]
        rw [ih _ hlen v]
        simp [List.mem_filter, hv]

theorem jsSetDedup_mem (l : List JsValue) (v : JsValue) :
    v ∈ jsSetDedup l ↔ v ∈ l :=
  jsSetDedup_mem_aux l.length l le_rfl v

theorem jsSetDedup_nodup_aux (n : Nat) :
    ∀ l : List JsValue, l.length ≤ n → (jsSetDedup l).Nodup := by
  induction n with
  | zero =>
    intro l hl
    have : l = [] := List.eq_nil_of_length_eq_zero (Nat.le_zero.mp hl)
    subst this
    simp [jsSetDedup]
  | succ n ih =>
    intro l hl
    match l with
    | [] => simp [jsSetDedup]
    | a :: t =>
      have hlen : (t.filter (fun b => b ≠ a)).length ≤ n := by
        have h1 := List.length_filter_le (fun b => decide (b ≠ a)) t
        simp only [List.length_cons] at hl
        omega
      rw [jsSetDedup]
      refine List.nodup_cons.mpr ⟨?_, ih _ hlen⟩
      intro hmem
      rw [jsSetDedup_mem] at hmem
      simp [List.mem_filter] at hmem

theorem jsSetDedup_nodup (l : List JsValue) : (jsSetDedup l).Nodup :=
  jsSetDedup_nodup_aux l.length l le_rfl

theorem removeLast_guard_false (room : String) (userId : JsValue)
    (hroom : room ≠ "") (hUt : truthy userId = true) :
    ¬ ((decide (room = "") || !truthy userId) = true) := by
  simp [hroom, hUt]

theorem removeLast_no_seg (bs : Boards) (room : String) (userId : JsValue)
    (strokes : List Stroke) (hroom : room ≠ "")
    (hUt : truthy userId = true)
    (hlk : lookupB bs room = some strokes)
    (hnone : findLastUserSeg strokes userId = none) :
    removeLastUserStroke bs room userId = (false, bs) := by
  unfold removeLastUserStroke
  rw [if_neg (removeLast_guard_false room userId hroom hUt), hlk]
  dsimp only
  rw [hnone]
  simp [truthy]

theorem removeLast_found_falsy (bs : Boards) (room : String)
    (userId : JsValue) (strokes : List Stroke) (seg : Stroke)
    (hroom : room ≠ "") (hUt : truthy userId = true)
    (hlk : lookupB bs room = some strokes)
    (hfound : findLastUserSeg strokes userId = some seg)
    (hfalsy : truthy seg.strokeId = false) :
    removeLastUserStroke bs room userId = (false, bs) := by
  unfold removeLastUserStroke
  rw [if_neg (removeLast_guard_false room userId hroom hUt), hlk]
  dsimp only
  rw [hfound]
  simp [hfalsy]

theorem removeLast_found_truthy (bs : Boards) (room : String)
    (userId : JsValue) (strokes : List Stroke) (seg : Stroke)
    (hroom : room ≠ "") (hUt : truthy userId = true)
    (hlk : lookupB bs room = some strokes)
    (hfound : findLastUserSeg strokes userId = some seg)
    (htruthy : truthy seg.strokeId = true) :
    removeLastUserStroke bs room userId =
      (true,
       setB bs room
         (strokes.filter
           (fun t => !(jsStrictEq t.userId userId &&
                       jsStrictEq t.strokeId seg.strokeId)))) := by
  have hfound' : strokes.reverse.find?
      (fun s => jsStrictEq s.userId userId) = some seg := hfound
  have hmem : seg ∈ strokes := by
    have h1 := List.mem_of_find?_eq_some hfound'
    exact List.mem_reverse.mp h1
  have hauthor : jsStrictEq seg.userId userId = true := by
    simpa using List.find?_some hfound'
  have hself : jsStrictEq seg.strokeId seg.strokeId = true :=
    jsStrictEq_refl_of_truthy _ htruthy
  have hpred : (fun t => !(jsStrictEq t.userId userId &&
      jsStrictEq t.strokeId seg.strokeId)) seg = false := by
    simp [hauthor, hself]
  have hlt :
      (strokes.filter
        (fun t => !(jsStrictEq t.userId userId &&
                    jsStrictEq t.strokeId seg.strokeId))).length <
      strokes.length := by
    rcases Nat.lt_or_ge (strokes.filter
      (fun t => !(jsStrictEq t.userId userId &&
                  jsStrictEq t.strokeId seg.strokeId))).length
      strokes.length with h | h
    · exact h
    · exfalso
      have hsub := List.filter_sublist (l := strokes)
        (p := fun t => !(jsStrictEq t.userId userId &&
                         jsStrictEq t.strokeId seg.strokeId))
      have heq := hsub.eq_of_length (Nat.le_antisymm hsub.length_le h)
      have hmem2 : seg ∈ strokes.filter
          (fun t => !(jsStrictEq t.userId userId &&
                      jsStrictEq t.strokeId seg.strokeId)) := by
        rw [heq]; exact hmem
      rw [List.mem_filter] at hmem2
      simp [hauthor, hself] at hmem2
  have hflag : decide (0 < strokes.length -
      (strokes.filter
        (fun t => !(jsStrictEq t.userId userId &&
                    jsStrictEq t.strokeId seg.strokeId))).length) = true :=
    decide_eq_true (Nat.sub_pos_of_lt hlt)
  unfold removeLastUserStroke
  rw [if_neg (removeLast_guard_false room userId hroom hUt), hlk]
  dsimp only
  rw [hfound]
  dsimp only
  rw [htruthy]
  rw [if_neg (by simp)]
  rw [hflag]

theorem findLastUserSeg_none_iff (strokes : List Stroke) (u : JsValue) :
    findLastUserSeg strokes u = none ↔
      ∀ s ∈ strokes, jsStrictEq s.userId u = false := by
  rw [findLastUserSeg, List.find?_eq_none]
  constructor
  · intro h s hs
    have := h s (List.mem_reverse.mpr hs)
    simpa using this
  · intro h s hs
    have := h s (List.mem_reverse.mp hs)
    simp [this]

/-- The result flag of removeLastUserStroke is true exactly when the room
board shrank. -/
theorem removeLast_flag_iff (bs : Boards) (room : String) (userId : JsValue) :
    ((removeLastUserStroke bs room userId).1 = true ↔
      (getBoard (removeLastUserStroke bs room userId).2
         (JsValue.str room)).length <
      (getBoard bs (JsValue.str room)).length) := by
  by_cases hguard : (decide (room = "") || !truthy userId) = true
  · have heq : removeLastUserStroke bs room userId = (false, bs) := by
      unfold removeLastUserStroke
      rw [if_pos hguard]
    rw [heq]
    simp
  · have hroom : ¬ room = "" := by
      intro h
      simp [h] at hguard
    have hUt : truthy userId = true := by
      by_contra hff
      have hf : truthy userId = false := Bool.eq_false_iff.mpr hff
      exact hguard (by simp [hf])
    cases hlk : lookupB bs room with
    | none =>
      have heq : removeLastUserStroke bs room userId = (false, bs) := by
        unfold removeLastUserStroke
        rw [if_neg hguard, hlk]
      rw [heq]
      simp
    | some strokes =>
      have hgb : getBoard bs (JsValue.str room) = strokes := by
        simp [getBoard, roomKey, hroom, hlk]
      cases hfound : findLastUserSeg strokes userId with
      | none =>
        rw [removeLast_no_seg bs room userId strokes hroom hUt hlk hfound]
        simp
      | some seg =>
        by_cases htr : truthy seg.strokeId = true
        · rw [removeLast_found_truthy bs room userId strokes seg hroom hUt
            hlk hfound htr]
          have hgb2 : getBoard (setB bs room
              (strokes.filter
                (fun t => !(jsStrictEq t.userId userId &&
                            jsStrictEq t.strokeId seg.strokeId))))
              (JsValue.str room) =
              strokes.filter
                (fun t => !(jsStrictEq t.userId userId &&
                            jsStrictEq t.strokeId seg.strokeId)) := by
            simp [getBoard, roomKey, hroom, lookupB_setB_self]
          dsimp only
          rw [hgb, hgb2]
          have hfound' : strokes.reverse.find?
              (fun s => jsStrictEq s.userId userId) = some seg := hfound
          have hmem : seg ∈ strokes := by
            have h1 := List.mem_of_find?_eq_some hfound'
            exact List.mem_reverse.mp h1
          have hauthor : jsStrictEq seg.userId userId = true := by
            simpa using List.find?_some hfound'
          have hself : jsStrictEq seg.strokeId seg.strokeId = true :=
            jsStrictEq_refl_of_truthy _ htr
          constructor
          · intro _
            have hne : seg ∉ strokes.filter
                (fun t => !(jsStrictEq t.userId userId &&
                            jsStrictEq t.strokeId seg.strokeId)) := by
              intro hc
              rw [List.mem_filter] at hc
              simp [hauthor, hself] at hc
            have hsub := List.filter_sublist (l := strokes)
              (p := fun t => !(jsStrictEq t.userId userId &&
                               jsStrictEq t.strokeId seg.strokeId))
            rcases Nat.lt_or_ge (strokes.filter
              (fun t => !(jsStrictEq t.userId userId &&
                          jsStrictEq t.strokeId seg.strokeId))).length
              strokes.length with h | h
            · exact h
            · exfalso
              have heq := hsub.eq_of_length
                (Nat.le_antisymm hsub.length_le h)
              rw [heq] at hne
              exact hne hmem
          · intro _
            rfl
        · have htr' : truthy seg.strokeId = false :=
            Bool.eq_false_iff.mpr htr
          rw [removeLast_found_falsy bs room userId strokes seg hroom hUt
            hlk hfound htr']
          simp

/-- A well-formed stroke segment with the given stroke group id, author
socket id and display name, used as concrete input for witnesses. -/
def mkSeg (gid uid uname : String) : Stroke :=
  { x0 := JsValue.num 0, y0 := JsValue.num 0,
    x1 := JsValue.num 1, y1 := JsValue.num 1,
    color := JsValue.str "#000", size := JsValue.num 5,
    strokeId := JsValue.str gid, userId := JsValue.str uid,
    username := JsValue.str uname, timestamp := JsValue.date 0 }

/-- validateStroke never reads the strokeId field. -/
theorem validateStroke_ignores_strokeId (s : Stroke) (x : JsValue) :
    validateStroke (some { s with strokeId := x }) =
      validateStroke (some s) := by
  cases s
  rfl

/-- First segment of the alice stroke group g1 in the spec scenario. -/
def segA1 : Stroke := mkSeg "g1" "alice" "Alice"

/-- Second segment of the alice stroke group g1 in the spec scenario. -/
def segA2 : Stroke := { mkSeg "g1" "alice" "Alice" with x0 := JsValue.num 2 }

/-- The bob segment of stroke group g2 in the spec scenario. -/
def segB : Stroke := mkSeg "g2" "bob" "Bob"

/-- The board of room R after the three addStroke calls of the spec
scenario. -/
def scenarioBoards : Boards :=
  (addStroke
    (addStroke
      (addStroke [] (JsValue.str "R") (some segA1) 0).2
      (JsValue.str "R") (some segA2) 0).2
    (JsValue.str "R") (some segB) 0).2

/-- A segment stored with an undefined strokeId (addStroke accepts it since
validateStroke never checks strokeId). -/
def undoNoIdSeg : Stroke :=
  { mkSeg "g1" "u" "UserU" with strokeId := JsValue.undef }

example : validateStroke (some (mkSeg "g1" "alice" "Alice")) = true := by decide
example : (addStroke [] (JsValue.str "R") (some (mkSeg "g1" "alice" "Alice")) 7) =
    (true, [("R", [mkSeg "g1" "alice" "Alice"])]) := by decide

example :
    let b1 := (addStroke [] (JsValue.str "R") (some (mkSeg "g1" "alice" "Alice")) 0).2
    let b2 := (addStroke b1 (JsValue.str "R") (some (mkSeg "g1" "alice" "Alice")) 0).2
    let b3 := (addStroke b2 (JsValue.str "R") (some (mkSeg "g2" "bob" "Bob")) 0).2
    removeLastUserStroke b3 "R" (JsValue.str "alice") =
      (true, [("R", [mkSeg "g2" "bob" "Bob"])]) := by decide

example :
    removeLastUserStroke
      [("R", [{ mkSeg "g1" "u" "U" with strokeId := JsValue.undef }])]
      "R" (JsValue.str "u") =
    (false, [("R", [{ mkSeg "g1" "u" "U" with strokeId := JsValue.undef }])]) := by
  decide

example : clearBoard [] (JsValue.str "ghost") = (false, []) := by decide
example : (getBoardStats [] (JsValue.str "R")).isFull = none := by decide
example : getBoard [] (JsValue.num 5) = [] := by decide
example : validateStroke (some { mkSeg "g" "u" "U" with size := JsValue.nan }) = true := by decide
example : validateStroke (some { mkSeg "g" "u" "U" with size := JsValue.num 150 }) = false := by decide
example : validateStroke (some { mkSeg "g" "u" "U" with x0 := JsValue.nan }) = false := by decide

/-- C1 counterexample: the claim fails as stated.  On a board whose only
segment is authored by u but carries an undefined strokeId, the tail scan
finds that segment and captures its stroke group id, and the segment
matches the author and the captured id (undefined === undefined), so the
claim requires it to be removed; the code instead returns false and leaves
the board unchanged. -/
theorem claim1_counterexample :
    removeLastUserStroke [("R", [undoNoIdSeg])] "R" (JsValue.str "u") =
      (false, [("R", [undoNoIdSeg])]) ∧
    findLastUserSeg [undoNoIdSeg] (JsValue.str "u") = some undoNoIdSeg ∧
    jsStrictEq undoNoIdSeg.userId (JsValue.str "u") = true ∧
    jsStrictEq undoNoIdSeg.strokeId undoNoIdSeg.strokeId = true := by
  decide

/-- C1 (amended): for every board, room and author connection id U,
removeLastUserStroke scans from the tail backward for the first segment
authored by U and captures its stroke group id; when no segment of U
exists it returns false and leaves the board unchanged; when the captured
id is truthy it removes exactly the segments whose author is U and whose
stroke group id strictly equals the captured id, at any position, leaving
all other segments in their original relative order, and returns true;
when the captured id is falsy (absent, null or empty) it returns false
and leaves the board unchanged even though U has segments. -/
theorem claim1_undo_last_group (bs : Boards) (room : String)
    (strokes : List Stroke) (U : String) (hroom : room ≠ "") (hU : U ≠ "")
    (hlk : lookupB bs room = some strokes) :
    ((∀ s ∈ strokes, jsStrictEq s.userId (JsValue.str U) = false) →
       removeLastUserStroke bs room (JsValue.str U) = (false, bs)) ∧
    (∀ seg, findLastUserSeg strokes (JsValue.str U) = some seg →
       truthy seg.strokeId = true →
       removeLastUserStroke bs room (JsValue.str U) =
         (true, setB bs room (strokes.filter (fun t =>
           !(jsStrictEq t.userId (JsValue.str U) &&
             jsStrictEq t.strokeId seg.strokeId))))) ∧
    (∀ seg, findLastUserSeg strokes (JsValue.str U) = some seg →
       truthy seg.strokeId = false →
       removeLastUserStroke bs room (JsValue.str U) = (false, bs)) := by
  refine ⟨?_, ?_, ?_⟩
  · intro hns
    exact removeLast_no_seg bs room _ strokes hroom (truthy_str U hU) hlk
      ((findLastUserSeg_none_iff strokes _).mpr hns)
  · intro seg hf ht
    exact removeLast_found_truthy bs room _ strokes seg hroom
      (truthy_str U hU) hlk hf ht
  · intro seg hf hfalsy
    exact removeLast_found_falsy bs room _ strokes seg hroom
      (truthy_str U hU) hlk hf hfalsy

/-- C1 witness: the spec scenario.  After adding the two alice segments of
group g1 and the bob segment of group g2 to the empty room R, undoing for
alice removes both alice segments and the snapshot is exactly the bob
segment. -/
theorem claim1_witness :
    lookupB scenarioBoards "R" = some [segA1, segA2, segB] ∧
    findLastUserSeg [segA1, segA2, segB] (JsValue.str "alice") = some segA2 ∧
    truthy segA2.strokeId = true ∧
    removeLastUserStroke scenarioBoards "R" (JsValue.str "alice") =
      (true, setB scenarioBoards "R"
        ([segA1, segA2, segB].filter (fun t =>
          !(jsStrictEq t.userId (JsValue.str "alice") &&
            jsStrictEq t.strokeId segA2.strokeId)))) ∧
    getBoard (removeLastUserStroke scenarioBoards "R"
      (JsValue.str "alice")).2 (JsValue.str "R") = [segB] := by
  refine ⟨by decide, by decide, by decide, ?_, by decide⟩
  exact (claim1_undo_last_group scenarioBoards "R" [segA1, segA2, segB]
    "alice" (by decide) (by decide) (by decide)).2.1 segA2
    (by decide) (by decide)

/-- C10: addStroke accepts segments regardless of their strokeId field
(validateStroke never reads it, so a segment with an undefined or empty
strokeId is stored), and on any board whose tail-most segment authored by
U carries a falsy strokeId, removeLastUserStroke returns false and leaves
the board unchanged even though U has segments on the board. -/
theorem claim10_strokeId_never_validated :
    (∀ (s : Stroke) (x y : JsValue),
       validateStroke (some { s with strokeId := x }) =
         validateStroke (some { s with strokeId := y })) ∧
    (∀ (bs : Boards) (room : JsValue) (r : String) (s : Stroke)
       (x : JsValue) (now : Nat), roomKey room = some r →
       validateStroke (some s) = true →
       (addStroke bs room (some { s with strokeId := x }) now).1 = true) ∧
    (∀ (bs : Boards) (room : String) (strokes : List Stroke) (U : String)
       (seg : Stroke), room ≠ "" → U ≠ "" →
       lookupB bs room = some strokes →
       findLastUserSeg strokes (JsValue.str U) = some seg →
       truthy seg.strokeId = false →
       removeLastUserStroke bs room (JsValue.str U) = (false, bs) ∧
       seg ∈ strokes ∧
       jsStrictEq seg.userId (JsValue.str U) = true) := by
  refine ⟨?_, ?_, ?_⟩
  · intro s x y
    rw [validateStroke_ignores_strokeId s x,
      validateStroke_ignores_strokeId s y]
  · intro bs room r s x now hr hv
    have hvx : validateStroke (some { s with strokeId := x }) = true := by
      rw [validateStroke_ignores_strokeId]; exact hv
    rw [addStroke_valid bs room r _ now hr hvx]
  · intro bs room strokes U seg hroom hU hlk hfound hfalsy
    have hfound' : strokes.reverse.find?
        (fun s => jsStrictEq s.userId (JsValue.str U)) = some seg := hfound
    refine ⟨removeLast_found_falsy bs room _ strokes seg hroom
      (truthy_str U hU) hlk hfound hfalsy, ?_, ?_⟩
    · exact List.mem_reverse.mp (List.mem_of_find?_eq_some hfound')
    · simpa using List.find?_some hfound'

/-- C10 witness: a stroke whose strokeId is undefined passes validation
and is appended, and undo on a board whose tail-most u segment has an
undefined strokeId is a no-op returning false although u has a segment. -/
theorem claim10_witness :
    validateStroke (some { mkSeg "g" "u" "UserU" with
      strokeId := JsValue.undef }) =
      validateStroke (some { mkSeg "g" "u" "UserU" with
        strokeId := JsValue.str "g" }) ∧
    (addStroke [] (JsValue.str "R")
      (some { mkSeg "g" "u" "UserU" with strokeId := JsValue.undef }) 0).1 =
      true ∧
    (removeLastUserStroke [("R", [undoNoIdSeg])] "R" (JsValue.str "u") =
       (false, [("R", [undoNoIdSeg])]) ∧
     undoNoIdSeg ∈ [undoNoIdSeg] ∧
     jsStrictEq undoNoIdSeg.userId (JsValue.str "u") = true) := by
  refine ⟨?_, ?_, ?_⟩
  · exact claim10_strokeId_never_validated.1 (mkSeg "g" "u" "UserU")
      JsValue.undef (JsValue.str "g")
  · exact claim10_strokeId_never_validated.2.1 [] (JsValue.str "R") "R"
      (mkSeg "g" "u" "UserU") JsValue.undef 0 (by decide) (by decide)
  · exact claim10_strokeId_never_validated.2.2 [("R", [undoNoIdSeg])] "R"
      [undoNoIdSeg] "u" undoNoIdSeg (by decide) (by decide) (by decide)
      (by decide) (by decide)

/-- C6: clearBoard empties the board and returns true whenever a board
exists for the room (even an already empty one), after which the snapshot
is empty; it returns false and changes nothing exactly when the room name
is invalid or the room has no board at all. -/
theorem claim6_clearBoard (bs : Boards) (room : JsValue) :
    (roomKey room = none → clearBoard bs room = (false, bs)) ∧
    (∀ r : String, roomKey room = some r → lookupB bs r = none →
       clearBoard bs room = (false, bs)) ∧
    (∀ (r : String) (v : List Stroke), roomKey room = some r →
       lookupB bs r = some v →
       clearBoard bs room = (true, setB bs r []) ∧
       getBoard (setB bs r []) room = []) := by
  refine ⟨?_, ?_, ?_⟩
  · intro h
    simp [clearBoard, h]
  · intro r hr hn
    simp [clearBoard, hr, hn]
  · intro r v hr hv
    constructor
    · simp [clearBoard, hr, hv]
    · simp [getBoard, hr, lookupB_setB_self]

/-- C6 witness: clearing the populated room R succeeds and empties the
snapshot; clearing the never-touched room ghost returns false. -/
theorem claim6_witness :
    (clearBoard [("R", [segA1])] (JsValue.str "R") =
       (true, setB [("R", [segA1])] "R" []) ∧
     getBoard (setB [("R", [segA1])] "R" []) (JsValue.str "R") = []) ∧
    clearBoard [("R", [segA1])] (JsValue.str "ghost") =
      (false, [("R", [segA1])]) ∧
    clearBoard [("R", [segA1])] (JsValue.num 7) =
      (false, [("R", [segA1])]) := by
  refine ⟨?_, ?_, ?_⟩
  · exact (claim6_clearBoard [("R", [segA1])] (JsValue.str "R")).2.2 "R"
      [segA1] (by decide) (by decide)
  · exact (claim6_clearBoard [("R", [segA1])] (JsValue.str "ghost")).2.1
      "ghost" (by decide) (by decide)
  · exact (claim6_clearBoard [("R", [segA1])] (JsValue.num 7)).1 (by decide)

/-- C7: getBoard is total — it returns the empty sequence for an invalid
room name (non-string or empty), for a room with no board, and for a
deleted room (assuming the unique-key invariant of the boards object),
and returns the full stored sequence for an existing board. -/
theorem claim7_getBoard_total (bs : Boards) (room : JsValue) :
    (roomKey room = none → getBoard bs room = []) ∧
    (∀ r : String, roomKey room = some r → lookupB bs r = none →
       getBoard bs room = []) ∧
    (∀ (r : String) (v : List Stroke), roomKey room = some r →
       lookupB bs r = some v → getBoard bs room = v) ∧
    (∀ r : String, (bs.map Prod.fst).Nodup →
       getBoard (deleteBoard bs r) (JsValue.str r) = []) := by
  refine ⟨?_, ?_, ?_, ?_⟩
  · intro h
    simp [getBoard, h]
  · intro r hr hn
    simp [getBoard, hr, hn]
  · intro r v hr hv
    simp [getBoard, hr, hv]
  · intro r hnd
    by_cases hr : r = ""
    · subst hr
      simp [getBoard, roomKey]
    · cases hlk : lookupB bs r with
      | none =>
        simp [deleteBoard, hlk, getBoard, roomKey, hr]
      | some v =>
        have hdel : lookupB (delB bs r) r = none :=
          lookupB_delB_self bs r hnd
        simp [deleteBoard, hlk, getBoard, roomKey, hr, hdel]

/-- C7 witness: unknown room, invalid room name and deleted room all yield
the empty sequence; the populated room yields its stored sequence. -/
theorem claim7_witness :
    getBoard [("R", [segA1])] (JsValue.str "ghost") = [] ∧
    getBoard [("R", [segA1])] JsValue.null = [] ∧
    getBoard [("R", [segA1])] (JsValue.str "R") = [segA1] ∧
    getBoard (deleteBoard [("R", [segA1])] "R") (JsValue.str "R") = [] := by
  refine ⟨?_, ?_, ?_, ?_⟩
  · exact (claim7_getBoard_total [("R", [segA1])] (JsValue.str "ghost")).2.1
      "ghost" (by decide) (by decide)
  · exact (claim7_getBoard_total [("R", [segA1])] JsValue.null).1 (by decide)
  · exact (claim7_getBoard_total [("R", [segA1])] (JsValue.str "R")).2.2.1
      "R" [segA1] (by decide) (by decide)
  · exact (claim7_getBoard_total [("R", [segA1])] (JsValue.str "R")).2.2.2
      "R" (by decide)

/-- C3: addStroke returns true exactly when the segment was appended.
When the candidate fails validateStroke (missing or non-number or
non-finite coordinate, size failing the JS checks, color not a nonempty
string, missing or empty or non-string author id or display name) or the
room name is invalid, addStroke returns false and the boards are
completely unchanged — no eviction, identical snapshot; when validation
and the room check pass, the stroke (with timestamp assigned if absent) is
appended after the capacity eviction and true is returned. -/
theorem claim3_addStroke_validation (bs : Boards) (room : JsValue)
    (stroke : Option Stroke) (now : Nat) :
    (validateStroke stroke = false →
       addStroke bs room stroke now = (false, bs)) ∧
    (roomKey room = none → addStroke bs room stroke now = (false, bs)) ∧
    ((addStroke bs room stroke now).1 = false →
       (addStroke bs room stroke now).2 = bs) ∧
    (∀ (r : String) (s : Stroke), roomKey room = some r →
       stroke = some s → validateStroke stroke = true →
       addStroke bs room stroke now =
         (true, setB bs r
           ((if MAX_STROKES_PER_ROOM ≤ ((lookupB bs r).getD []).length
             then ((lookupB bs r).getD []).drop 1
             else (lookupB bs r).getD []) ++ [stampTs now s]))) ∧
    ((addStroke bs room stroke now).1 = true ↔
       (∃ r : String, roomKey room = some r) ∧
       validateStroke stroke = true) := by
  refine ⟨?_, ?_, ?_, ?_, ?_⟩
  · exact addStroke_invalid bs room stroke now
  · exact addStroke_bad_room bs room stroke now
  · intro hfalse
    cases hr : roomKey room with
    | none => rw [addStroke_bad_room bs room stroke now hr]
    | some r =>
      cases hv : validateStroke stroke with
      | false => rw [addStroke_invalid bs room stroke now hv]
      | true =>
        cases stroke with
        | none => simp [validateStroke] at hv
        | some s =>
          rw [addStroke_valid bs room r s now hr hv] at hfalse
          simp at hfalse
  · intro r s hr hs hv
    subst hs
    exact addStroke_valid bs room r s now hr hv
  · constructor
    · intro htrue
      cases hr : roomKey room with
      | none => rw [addStroke_bad_room bs room stroke now hr] at htrue
                simp at htrue
      | some r =>
        cases hv : validateStroke stroke with
        | false => rw [addStroke_invalid bs room stroke now hv] at htrue
                   simp at htrue
        | true => exact ⟨⟨r, rfl⟩, rfl⟩
    · rintro ⟨⟨r, hr⟩, hv⟩
      cases stroke with
      | none => simp [validateStroke] at hv
      | some s =>
        rw [addStroke_valid bs room r s now hr hv]

/-- C3 witness: a stroke with a NaN coordinate is rejected without any
change to a populated board, a valid stroke sent to an invalid room is
rejected, and a valid stroke is appended with result true. -/
theorem claim3_witness :
    validateStroke
      (some { mkSeg "g" "u" "UserU" with x0 := JsValue.nan }) = false ∧
    addStroke [("R", [segA1])] (JsValue.str "R")
      (some { mkSeg "g" "u" "UserU" with x0 := JsValue.nan }) 0 =
      (false, [("R", [segA1])]) ∧
    addStroke [("R", [segA1])] JsValue.undef (some segB) 0 =
      (false, [("R", [segA1])]) ∧
    addStroke [("R", [segA1])] (JsValue.str "R") (some segB) 5 =
      (true, setB [("R", [segA1])] "R"
        ((if MAX_STROKES_PER_ROOM ≤
             ((lookupB [("R", [segA1])] "R").getD []).length
          then ((lookupB [("R", [segA1])] "R").getD []).drop 1
          else (lookupB [("R", [segA1])] "R").getD []) ++
         [stampTs 5 segB])) := by
  refine ⟨by decide, ?_, ?_, ?_⟩
  · exact (claim3_addStroke_validation [("R", [segA1])] (JsValue.str "R")
      (some { mkSeg "g" "u" "UserU" with x0 := JsValue.nan }) 0).1
      (by decide)
  · exact (claim3_addStroke_validation [("R", [segA1])] JsValue.undef
      (some segB) 0).2.1 (by decide)
  · exact (claim3_addStroke_validation [("R", [segA1])] (JsValue.str "R")
      (some segB) 5).2.2.2.1 "R" segB (by decide) rfl (by decide)

/-- C5 counterexample: on an empty or unknown room the record returned by
getBoardStats carries no isFull field at all (the empty-board branch of
the source omits it, together with maxCapacity), refuting the claim that
the returned record contains an isFull flag on every room including empty
and unknown ones. -/
theorem claim5_counterexample :
    (getBoardStats [] (JsValue.str "ghost")).isFull = none ∧
    (getBoardStats [] (JsValue.str "ghost")).isFull ≠
      some (decide (MAX_STROKES_PER_ROOM ≤
        (getBoard [] (JsValue.str "ghost")).length)) := by
  decide

/-- C5 (amended): getBoardStats derives, without mutating the board, the
stroke count, the duplicate-free first-occurrence list of distinct
authors (whose length is the distinct author count) and isEmpty true
exactly when the board has no segments; on a non-empty board the record
carries isFull true exactly when the board holds MAX_STROKES_PER_ROOM or
more segments, while on an empty or unknown room it returns stroke count
0, an empty author list, isEmpty true and omits the isFull and
maxCapacity fields. -/
theorem claim5_getBoardStats (bs : Boards) (room : JsValue) :
    (getBoardStats bs room).room = room ∧
    (getBoardStats bs room).strokeCount = (getBoard bs room).length ∧
    ((getBoardStats bs room).isEmpty = true ↔ getBoard bs room = []) ∧
    (getBoard bs room ≠ [] →
       (getBoardStats bs room).users =
         jsSetDedup ((getBoard bs room).map (fun s => s.userId)) ∧
       (getBoardStats bs room).isFull =
         some (decide (MAX_STROKES_PER_ROOM ≤
           (getBoard bs room).length)) ∧
       (getBoardStats bs room).maxCapacity = some MAX_STROKES_PER_ROOM) ∧
    (getBoard bs room = [] →
       (getBoardStats bs room).users = [] ∧
       (getBoardStats bs room).isFull = none ∧
       (getBoardStats bs room).maxCapacity = none) ∧
    (getBoardStats bs room).users.Nodup ∧
    (∀ v, v ∈ (getBoardStats bs room).users ↔
       v ∈ (getBoard bs room).map (fun s => s.userId)) := by
  by_cases h : getBoard bs room = []
  · have hlen : (getBoard bs room).length = 0 := by simp [h]
    simp [getBoardStats, hlen, h]
  · have hlen : ¬ (getBoard bs room).length = 0 := by
      intro hh
      exact h (List.eq_nil_of_length_eq_zero hh)
    simp [getBoardStats, hlen, h, jsSetDedup_nodup, jsSetDedup_mem]

/-- C5 witness: on a room with three segments by two authors the stats
carry count 3, the two distinct authors and isFull false; on an unknown
room they carry count 0, no authors and no isFull field. -/
theorem claim5_witness :
    (getBoardStats [("R", [segA1, segA2, segB])] (JsValue.str "R")).users =
      jsSetDedup ([segA1, segA2, segB].map (fun s => s.userId)) ∧
    (getBoardStats [("R", [segA1, segA2, segB])] (JsValue.str "R")).isFull =
      some (decide (MAX_STROKES_PER_ROOM ≤
        (getBoard [("R", [segA1, segA2, segB])] (JsValue.str "R")).length)) ∧
    (getBoardStats [("R", [segA1, segA2, segB])]
       (JsValue.str "R")).strokeCount = 3 ∧
    (getBoardStats [] (JsValue.str "ghost")).users = [] ∧
    (getBoardStats [] (JsValue.str "ghost")).isFull = none := by
  have hne : getBoard [("R", [segA1, segA2, segB])] (JsValue.str "R") ≠ [] :=
    by decide
  have h1 := (claim5_getBoardStats [("R", [segA1, segA2, segB])]
    (JsValue.str "R")).2.2.2.1 hne
  have h2 := (claim5_getBoardStats [] (JsValue.str "ghost")).2.2.2.2.1
    (by decide)
  refine ⟨?_, ?_, by decide, h2.1, h2.2.1⟩
  · have := h1.1
    simpa using this
  · exact h1.2.1

/-- A valid stroke used as concrete input for the capacity witnesses. -/
def capSeg : Stroke := mkSeg "gcap" "cap" "Cap"

/-- C2: starting from boards in which every room holds at most
MAX_STROKES_PER_ROOM segments, no sequence of addStroke calls ever pushes
any room board beyond MAX_STROKES_PER_ROOM; adding a valid stroke to a
board holding exactly MAX_STROKES_PER_ROOM segments evicts exactly the
head segment before appending; and after adding MAX_STROKES_PER_ROOM + 1
valid strokes one at a time to an empty registry the room snapshot equals
the input sequence without its first element — length
MAX_STROKES_PER_ROOM, with the very first inserted stroke absent whenever
it does not reoccur later. -/
theorem claim2_capacity_eviction :
    (∀ (bs : Boards) (calls : List (JsValue × Option Stroke × Nat)),
       (∀ r : String,
          ((lookupB bs r).getD []).length ≤ MAX_STROKES_PER_ROOM) →
       ∀ r : String,
         ((lookupB (runAddStrokes bs calls) r).getD []).length ≤
           MAX_STROKES_PER_ROOM) ∧
    (∀ (bs : Boards) (room : JsValue) (r : String) (s : Stroke) (now : Nat),
       roomKey room = some r → validateStroke (some s) = true →
       ((lookupB bs r).getD []).length = MAX_STROKES_PER_ROOM →
       (addStroke bs room (some s) now).2 =
         setB bs r (((lookupB bs r).getD []).drop 1 ++ [stampTs now s])) ∧
    (∀ (room : JsValue) (r : String) (strokes : List Stroke) (now : Nat),
       roomKey room = some r →
       strokes.length = MAX_STROKES_PER_ROOM + 1 →
       (∀ s ∈ strokes, validateStroke (some s) = true ∧
          truthy s.timestamp = true) →
       getBoard (addStrokeList [] room strokes now) room =
         strokes.drop 1 ∧
       (getBoard (addStrokeList [] room strokes now) room).length =
         MAX_STROKES_PER_ROOM ∧
       (∀ (s0 : Stroke) (rest : List Stroke), strokes = s0 :: rest →
          s0 ∉ rest →
          s0 ∉ getBoard (addStrokeList [] room strokes now) room)) := by
  refine ⟨?_, ?_, ?_⟩
  · intro bs calls hb r
    exact runAddStrokes_bound calls bs hb r
  · intro bs room r s now hr hv hlen
    rw [addStroke_valid bs room r s now hr hv]
    dsimp only
    rw [if_pos hlen.ge]
  · intro room r strokes now hr hlen hall
    have hboard : getBoard (addStrokeList [] room strokes now) room =
        pushAll [] strokes := by
      have h1 := addStrokeList_pushAll room r now hr strokes [] hall
      have h2 : (lookupB ([] : Boards) r).getD [] = [] := rfl
      rw [h2] at h1
      simp [getBoard, hr, h1]
    have hne : strokes ≠ [] := by
      intro hh
      rw [hh] at hlen
      simp at hlen
    have hsplit := List.dropLast_append_getLast hne
    have hLlen : strokes.dropLast.length = MAX_STROKES_PER_ROOM := by
      rw [List.length_dropLast, hlen]
      rfl
    have hpush : pushAll [] strokes =
        strokes.dropLast.drop 1 ++ [strokes.getLast hne] := by
      calc pushAll [] strokes
          = pushAll [] (strokes.dropLast ++ [strokes.getLast hne]) := by
            rw [hsplit]
        _ = pushAll (pushAll [] strokes.dropLast) [strokes.getLast hne] :=
            pushAll_append strokes.dropLast [strokes.getLast hne] []
        _ = pushAll strokes.dropLast [strokes.getLast hne] := by
            rw [pushAll_no_evict strokes.dropLast []
              (by simp [hLlen])]
            simp
        _ = strokes.dropLast.drop 1 ++ [strokes.getLast hne] := by
            show pushAll ((if MAX_STROKES_PER_ROOM ≤
                strokes.dropLast.length
              then strokes.dropLast.drop 1 else strokes.dropLast) ++
              [strokes.getLast hne]) [] = _
            rw [if_pos hLlen.ge]
            rfl
    have hdrop : strokes.drop 1 =
        strokes.dropLast.drop 1 ++ [strokes.getLast hne] := by
      conv_lhs => rw [← hsplit]
      rw [List.drop_append_of_le_length (by rw [hLlen]; decide)]
    have hmain : getBoard (addStrokeList [] room strokes now) room =
        strokes.drop 1 := by
      rw [hboard, hpush, hdrop]
    refine ⟨hmain, ?_, ?_⟩
    · rw [hmain, List.length_drop, hlen]
      rfl
    · intro s0 rest hcons hnot
      rw [hmain, hcons]
      simpa using hnot

/-- C2 witness: one call keeps the empty registry within capacity; adding
to a full board evicts the head; and the 5001st valid insertion into an
initially empty room leaves exactly the last 5000 strokes. -/
theorem claim2_witness :
    ((lookupB (runAddStrokes []
        [(JsValue.str "R", some capSeg, 0)]) "R").getD []).length ≤
      MAX_STROKES_PER_ROOM ∧
    (addStroke [("R", List.replicate MAX_STROKES_PER_ROOM capSeg)]
        (JsValue.str "R") (some capSeg) 0).2 =
      setB [("R", List.replicate MAX_STROKES_PER_ROOM capSeg)] "R"
        (((lookupB [("R", List.replicate MAX_STROKES_PER_ROOM capSeg)]
            "R").getD []).drop 1 ++ [stampTs 0 capSeg]) ∧
    getBoard (addStrokeList []
        (JsValue.str "R")
        (List.replicate (MAX_STROKES_PER_ROOM + 1) capSeg) 0)
        (JsValue.str "R") =
      (List.replicate (MAX_STROKES_PER_ROOM + 1) capSeg).drop 1 ∧
    (getBoard (addStrokeList []
        (JsValue.str "R")
        (List.replicate (MAX_STROKES_PER_ROOM + 1) capSeg) 0)
        (JsValue.str "R")).length = MAX_STROKES_PER_ROOM := by
  have hall : ∀ s ∈ List.replicate (MAX_STROKES_PER_ROOM + 1) capSeg,
      validateStroke (some s) = true ∧ truthy s.timestamp = true := by
    intro s hs
    rw [List.eq_of_mem_replicate hs]
    exact ⟨by decide, by decide⟩
  have h3 := claim2_capacity_eviction.2.2 (JsValue.str "R") "R"
    (List.replicate (MAX_STROKES_PER_ROOM + 1) capSeg) 0 (by decide)
    (by simp) hall
  refine ⟨?_, ?_, h3.1, h3.2.1⟩
  · exact claim2_capacity_eviction.1 []
      [(JsValue.str "R", some capSeg, 0)]
      (by intro r; simp [lookupB]) "R"
  · exact claim2_capacity_eviction.2.1
      [("R", List.replicate MAX_STROKES_PER_ROOM capSeg)]
      (JsValue.str "R") "R" capSeg 0 (by decide) (by decide)
      (by simp [lookupB])

/-- C8: for every sequence of valid strokes (with assigned timestamps)
added one at a time to a room whose board starts empty and stays within
capacity, the snapshot returns exactly those strokes in insertion
order. -/
theorem claim8_insertion_order (bs : Boards) (room : JsValue) (r : String)
    (strokes : List Stroke) (now : Nat) (hr : roomKey room = some r)
    (h0 : (lookupB bs r).getD [] = [])
    (hlen : strokes.length ≤ MAX_STROKES_PER_ROOM)
    (hall : ∀ s ∈ strokes, validateStroke (some s) = true ∧
       truthy s.timestamp = true) :
    getBoard (addStrokeList bs room strokes now) room = strokes := by
  have h1 := addStrokeList_pushAll room r now hr strokes bs hall
  rw [h0] at h1
  rw [pushAll_no_evict strokes [] (by simpa using hlen)] at h1
  have h2 : (lookupB (addStrokeList bs room strokes now) r).getD [] =
      strokes := by
    rw [h1]
    simp
  simp [getBoard, hr, h2]

/-- C8 witness: adding the three scenario strokes to the empty room R
yields a snapshot equal to the insertion sequence. -/
theorem claim8_witness :
    getBoard (addStrokeList [] (JsValue.str "R") [segA1, segA2, segB] 0)
      (JsValue.str "R") = [segA1, segA2, segB] := by
  exact claim8_insertion_order [] (JsValue.str "R") "R"
    [segA1, segA2, segB] 0 (by decide) (by decide) (by decide) (by decide)

theorem roomKey_some_inv (rm : JsValue) (r : String)
    (h : roomKey rm = some r) : rm = JsValue.str r ∧ r ≠ "" := by
  cases rm with
  | str s =>
    by_cases hs : s = ""
    · simp [roomKey, hs] at h
    · simp [roomKey, hs] at h
      subst h
      exact ⟨rfl, hs⟩
  | undef => simp [roomKey] at h
  | null => simp [roomKey] at h
  | bool b => simp [roomKey] at h
  | nan => simp [roomKey] at h
  | inf p => simp [roomKey] at h
  | num q => simp [roomKey] at h
  | date t => simp [roomKey] at h

/-- The boards used by the C4 counterexample: room R holds a two-segment
alice stroke group. -/
def undoCexBoards : Boards := [("R", [segA1, segA2])]

/-- The session user used by the C4 counterexample. -/
def undoCexUser : UserRec := { id := "alice", username := "Alice", room := "R" }

/-- C4 counterexample: undoing the two-segment alice stroke group removes
two segments (the board shrinks from 2 to 0), yet the emitted strokeUndone
payload carries removedCount 1 — the handler hard-codes it — so the claim
that removedCount equals the number of removed segments fails. -/
theorem claim4_counterexample :
    handleUndoStroke (some undoCexUser) "alice" (JsValue.str "R")
        undoCexBoards 3 =
      ([("R", [])], [Emit.strokeUndone "R" "Alice" 1 [] 3]) ∧
    (getBoard undoCexBoards (JsValue.str "R")).length = 2 ∧
    (getBoard (handleUndoStroke (some undoCexUser) "alice"
        (JsValue.str "R") undoCexBoards 3).1 (JsValue.str "R")).length = 0 := by
  decide

/-- C4 (amended): for an undoStroke event whose payload room strictly
equals the sender's joined room, the strokeUndone broadcast is emitted
exactly when removeLastUserStroke removed at least one segment (the
board shrank), and the payload carries the undoer's display name, the
full post-removal snapshot and a removedCount that is always 1 regardless
of how many segments the undo removed. -/
theorem claim4_undo_broadcast (u : UserRec) (socketId : String)
    (rm : JsValue) (bs : Boards) (now : Nat)
    (htr : truthy rm = true)
    (heq : jsStrictEq rm (JsValue.str u.room) = true) :
    handleUndoStroke (some u) socketId rm bs now =
      ((removeLastUserStroke bs u.room (JsValue.str socketId)).2,
       if (removeLastUserStroke bs u.room (JsValue.str socketId)).1 then
         [Emit.strokeUndone u.room u.username 1
            (getBoard (removeLastUserStroke bs u.room
               (JsValue.str socketId)).2 (JsValue.str u.room)) now]
       else []) ∧
    ((removeLastUserStroke bs u.room (JsValue.str socketId)).1 = true ↔
       (getBoard (removeLastUserStroke bs u.room
          (JsValue.str socketId)).2 (JsValue.str u.room)).length <
       (getBoard bs (JsValue.str u.room)).length) := by
  constructor
  · simp only [handleUndoStroke, htr, heq, Bool.not_true, Bool.or_self,
      Bool.false_eq_true, if_false]
    by_cases hflag : (removeLastUserStroke bs u.room
        (JsValue.str socketId)).1 = true
    · simp [hflag]
    · have hf : (removeLastUserStroke bs u.room
          (JsValue.str socketId)).1 = false := Bool.eq_false_iff.mpr hflag
      simp [hf]
  · exact removeLast_flag_iff bs u.room (JsValue.str socketId)

/-- C4 witness: a matching-room undo of the single bob segment emits the
strokeUndone broadcast with the post-removal snapshot, and the removal
flag agrees with the board having shrunk. -/
theorem claim4_witness :
    handleUndoStroke (some { id := "bob", username := "Bob", room := "R" })
        "bob" (JsValue.str "R") [("R", [segB])] 9 =
      ((removeLastUserStroke [("R", [segB])] "R" (JsValue.str "bob")).2,
       if (removeLastUserStroke [("R", [segB])] "R"
           (JsValue.str "bob")).1 then
         [Emit.strokeUndone "R" "Bob" 1
            (getBoard (removeLastUserStroke [("R", [segB])] "R"
               (JsValue.str "bob")).2 (JsValue.str "R")) 9]
       else []) ∧
    ((removeLastUserStroke [("R", [segB])] "R" (JsValue.str "bob")).1 =
        true ↔
      (getBoard (removeLastUserStroke [("R", [segB])] "R"
         (JsValue.str "bob")).2 (JsValue.str "R")).length <
      (getBoard [("R", [segB])] (JsValue.str "R")).length) :=
  claim4_undo_broadcast { id := "bob", username := "Bob", room := "R" }
    "bob" (JsValue.str "R") [("R", [segB])] 9 (by decide) (by decide)

/-- C9: every board event (draw, clearBoard, undoStroke,
requestBoardState, strokeComplete) from a sender with a session record
whose declared room is not strictly equal to the sender's joined room is
dropped silently: the boards are unchanged and nothing is emitted;
strokeComplete never touches the boards or emits at all. -/
theorem claim9_room_mismatch (u : UserRec) (bs : Boards) (now : Nat)
    (socketId : String) :
    (∀ p : DrawPayload, jsStrictEq p.room (JsValue.str u.room) = false →
       handleDraw (some u) socketId (some p) bs now = (bs, [])) ∧
    (∀ rm : JsValue, jsStrictEq rm (JsValue.str u.room) = false →
       handleClearBoard (some u) rm bs now = (bs, [])) ∧
    (∀ rm : JsValue, jsStrictEq rm (JsValue.str u.room) = false →
       handleUndoStroke (some u) socketId rm bs now = (bs, [])) ∧
    (∀ rm : JsValue, jsStrictEq rm (JsValue.str u.room) = false →
       handleRequestBoardState (some u) rm bs = (bs, [])) ∧
    (∀ rm : JsValue, handleStrokeComplete (some u) rm bs = (bs, [])) := by
  refine ⟨?_, ?_, ?_, ?_, ?_⟩
  · intro p h
    simp [handleDraw, h]
  · intro rm h
    simp [handleClearBoard, h]
  · intro rm h
    simp [handleUndoStroke, h]
  · intro rm h
    cases hk : roomKey rm with
    | none => simp [handleRequestBoardState, hk]
    | some r =>
      obtain ⟨hrm, hr⟩ := roomKey_some_inv rm r hk
      subst hrm
      have hne : ¬ u.room = r := by
        intro hh
        rw [jsStrictEq, hh] at h
        simp at h
      simp [handleRequestBoardState, hk, hne]
  · intro rm
    simp [handleStrokeComplete]

/-- C9 witness: each of the five handlers, invoked by a user joined to
room R with a declared room other, leaves the boards untouched and emits
nothing. -/
theorem claim9_witness :
    handleDraw (some { id := "s1", username := "Alice", room := "R" }) "s1"
      (some { room := JsValue.str "other", x0 := JsValue.num 0,
              y0 := JsValue.num 0, x1 := JsValue.num 1,
              y1 := JsValue.num 1, color := JsValue.str "#000",
              size := JsValue.num 5, strokeId := JsValue.str "g" })
      [("R", [segA1])] 0 = ([("R", [segA1])], []) ∧
    handleClearBoard (some { id := "s1", username := "Alice", room := "R" })
      (JsValue.str "other") [("R", [segA1])] 0 = ([("R", [segA1])], []) ∧
    handleUndoStroke (some { id := "s1", username := "Alice", room := "R" })
      "s1" (JsValue.str "other") [("R", [segA1])] 0 =
      ([("R", [segA1])], []) ∧
    handleRequestBoardState
      (some { id := "s1", username := "Alice", room := "R" })
      (JsValue.str "other") [("R", [segA1])] = ([("R", [segA1])], []) ∧
    handleStrokeComplete
      (some { id := "s1", username := "Alice", room := "R" })
      (JsValue.str "other") [("R", [segA1])] = ([("R", [segA1])], []) := by
  have h := claim9_room_mismatch
    { id := "s1", username := "Alice", room := "R" } [("R", [segA1])] 0 "s1"
  exact ⟨h.1 _ (by decide), h.2.1 _ (by decide), h.2.2.1 _ (by decide),
    h.2.2.2.1 _ (by decide), h.2.2.2.2 _⟩

end Whiteboard
